import Mathlib

/-!
Shallow embedding of the stockcharts repository's chart engine:
the y-domain computation, the synthetic data generator, the
company-visibility toggle, the tooltip value formatter, and the
zoom/transform handling, together with theorems settling the
specification claims about them.

JavaScript numbers appearing in domain computations are modelled by
`JSVal` (a finite rational, or one of the two infinities produced by
`Math.max`/`Math.min` over an empty argument list); all other numeric
values are modelled by `ℚ`.  Each call to `Math.random()` is modelled
by an oracle function indexed by the loop position of the call site,
quantified over draws in `[0,1)` where a claim requires it.
-/

namespace StockCharts

/-- A JavaScript number as it can appear in the y-domain computation:
a finite value, or `-Infinity` / `Infinity` as returned by
`Math.max(...[])` / `Math.min(...[])`.  (`NaN` cannot appear there:
the source filters values with `!isNaN` before taking min/max.) -/
inductive JSVal where
  | num (q : ℚ)
  | negInf
  | posInf
deriving DecidableEq

/-- Binary `Math.max` on two non-NaN JavaScript numbers. -/
def jsMax2 : JSVal → JSVal → JSVal
  | .posInf, _ => .posInf
  | _, .posInf => .posInf
  | .negInf, b => b
  | a, .negInf => a
  | .num a, .num b => .num (max a b)

/-- Binary `Math.min` on two non-NaN JavaScript numbers. -/
def jsMin2 : JSVal → JSVal → JSVal
  | .negInf, _ => .negInf
  | _, .negInf => .negInf
  | .posInf, b => b
  | a, .posInf => a
  | .num a, .num b => .num (min a b)

/-- Spread `Math.max(...l)`: `-Infinity` on the empty argument list. -/
def jsMaxList (l : List ℚ) : JSVal :=
  l.foldr (fun q acc => jsMax2 (.num q) acc) .negInf

/-- Spread `Math.min(...l)`: `Infinity` on the empty argument list. -/
def jsMinList (l : List ℚ) : JSVal :=
  l.foldr (fun q acc => jsMin2 (.num q) acc) .posInf

/-- Absolute value `Math.abs` on a non-NaN JavaScript number. -/
def jsAbs : JSVal → JSVal
  | .num q => .num |q|
  | _ => .posInf

/-- Negation of a non-NaN JavaScript number. -/
def jsNeg : JSVal → JSVal
  | .num q => .num (-q)
  | .negInf => .posInf
  | .posInf => .negInf

/-- Multiplication `v * c` of a non-NaN JavaScript number by a positive
finite constant (the source only multiplies domain endpoints by `0.9`
and `1.1`). -/
def jsMulPos : JSVal → ℚ → JSVal
  | .num q, c => .num (q * c)
  | .negInf, _ => .negInf
  | .posInf, _ => .posInf

/-- One row of the dataset as consumed by the y-domain computation in
`Chart.jsx`.  `date = none` models an unparseable date (filtered out by
the `validData` filter).  Each metric column maps a company name to its
value; a missing key models both an absent property (`undefined`) and a
`NaN` entry, since either is dropped by the `!isNaN` filter. -/
structure Row where
  date : Option Int
  price : List (String × ℚ)
  volume : List (String × ℚ)
  change : List (String × ℚ)

/-- The filter `data.filter((d) => { const date = new Date(d.date); return date
instanceof Date && !isNaN(date); })` — keep rows whose date parses. -/
def validRows (data : List Row) : List Row :=
  data.filter (fun d => d.date.isSome)

/-- The expression `validData.flatMap((d) => visibleCompanies.map((company) =>
column(d)[company]).filter((v) => !isNaN(v)))` — the multiset of values
entering the y-domain computation for one metric column. -/
def metricValues (rows : List Row) (visible : List String)
    (column : Row → List (String × ℚ)) : List ℚ :=
  rows.flatMap fun d => (visible.map fun c => (column d).lookup c).filterMap id

/-- The `yDomain` computation of `Chart.jsx` (lines 163–191): per-metric
domain endpoints `[lo, hi]` fed to `d3.scaleLinear().domain(...)`. -/
def yDomain (filteredMetric : String) (data : List Row)
    (visibleCompanies : List String) : JSVal × JSVal :=
  let vd := validRows data
  if filteredMetric = "price" then
    let values := metricValues vd visibleCompanies Row.price
    (jsMulPos (jsMinList values) (9/10), jsMulPos (jsMaxList values) (11/10))
  else if filteredMetric = "volume" then
    let values := metricValues vd visibleCompanies Row.volume
    (.num 0, jsMulPos (jsMaxList values) (11/10))
  else
    let values := metricValues vd visibleCompanies Row.change
    let absMax := jsMax2 (jsAbs (jsMinList values)) (jsAbs (jsMaxList values))
    (jsNeg absMax, absMax)

/-- Function `toggleCompany` from `Chart.jsx` (lines 66–82): the pure update of
the `visibleCompanies` list (the animation side effects do not touch the
list).  If the company is present it is removed by `filter`, otherwise
it is appended at the end. -/
def toggleCompany (prev : List String) (company : String) : List String :=
  if prev.contains company then prev.filter (fun c => c != company)
  else prev ++ [company]

/-! Definitions for the synthetic data generator (`generateStockData`, Chart.jsx 692–757). -/

/-- The range-dependent multiplier of `generateStockData`:
`day → 0.5`, `week → 1`, `month → 2`, otherwise `3`. -/
def rangeMultiplier (timeRange : String) : ℚ :=
  if timeRange = "day" then 1/2
  else if timeRange = "week" then 1
  else if timeRange = "month" then 2
  else 3

/-- Milliseconds in one hour (the step of `date.setHours(h - 1)`). -/
def msPerHour : Int := 3600000

/-- Milliseconds in one day (the step of `date.setDate(d - 1)`). -/
def msPerDay : Int := 86400000

/-- The timestamp step between consecutive generated points: one hour
for the `day` range, one day otherwise. -/
def dateStep (timeRange : String) : Int :=
  if timeRange = "day" then msPerHour else msPerDay

/-- The timestamp of point `i`: `today` minus `numPoints - i - 1` hours
(range `day`) or days (otherwise), per the `setHours`/`setDate` calls.
Dates are modelled as integer milliseconds since the epoch. -/
def pointDate (timeRange : String) (today : Int) (numPoints i : ℕ) : Int :=
  today - dateStep timeRange * ((numPoints : Int) - (i : Int) - 1)

/-- One generated temporal sample: its date and, aligned with the
`companies` list, the price values (`dataPoint[company]`), the percent
changes (`dataPoint[company_change]`) and the volumes
(`dataPoint[company_volume]`). -/
structure DataPoint where
  date : Int
  values : List ℚ
  changes : List ℚ
  volumes : List ℚ

/-- The inner `companies.forEach` body of one loop iteration: from the
previous values `prev` (company index `j` counting from the given
start), produce `(newValue, percentChange, volume)` per company, where
`chg j` and `vol j` are that iteration's `Math.random()` draws:
`change = prevValue * (chg j * 0.1 - 0.05) * rangeMultiplier`,
`percentChange = change / prevValue * 100`,
`volume = Math.floor(vol j * 990000 + 10000)`. -/
def stepCompanies (mult : ℚ) (chg vol : ℕ → ℚ) :
    List ℚ → ℕ → List (ℚ × ℚ × ℚ)
  | [], _ => []
  | p :: ps, j =>
    let change := p * (chg j * (1/10) - 1/20) * mult
    (p + change, change / p * 100, ((⌊vol j * 990000 + 10000⌋ : ℤ) : ℚ)) ::
      stepCompanies mult chg vol ps (j + 1)

/-- The main `for (let i = 0; …)` loop of `generateStockData`,
generating `fuel` points starting at index `i`, with `prev` the values
of point `i - 1` (the `initialValues` when `i = 0`).  `chgR i j` and
`volR i j` are the `Math.random()` draws at point `i`, company `j`. -/
def genPoints (timeRange : String) (today : Int) (numPoints : ℕ) (mult : ℚ)
    (chgR volR : ℕ → ℕ → ℚ) : ℕ → ℕ → List ℚ → List DataPoint
  | _, 0, _ => []
  | i, fuel + 1, prev =>
    let cs := stepCompanies mult (chgR i) (volR i) prev 0
    { date := pointDate timeRange today numPoints i
      values := cs.map (fun c => c.1)
      changes := cs.map (fun c => c.2.1)
      volumes := cs.map (fun c => c.2.2) } ::
      genPoints timeRange today numPoints mult chgR volR (i + 1) fuel
        (cs.map (fun c => c.1))

/-- The assignment `initialValues[company] = Math.random() * 400 + 100`, with `initR j`
the draw for company index `j`. -/
def initialValuesList (initR : ℕ → ℚ) (numCompanies : ℕ) : List ℚ :=
  (List.range numCompanies).map fun j => initR j * 400 + 100

/-- Function `generateStockData(numPoints, companies, timeRange)` from
`Chart.jsx`, with the three `Math.random()` call sites modelled by the
oracles `initR` (initial value per company), `chgR` and `volR` (per
point per company), and `new Date()` modelled by `today`. -/
def generateStockData (numPoints : ℕ) (companies : List String)
    (timeRange : String) (initR : ℕ → ℚ) (chgR volR : ℕ → ℕ → ℚ)
    (today : Int) : List DataPoint :=
  genPoints timeRange today numPoints (rangeMultiplier timeRange) chgR volR
    0 numPoints (initialValuesList initR companies.length)

/-! Definitions for the tooltip value formatter (`formatValue`, Tooltip.jsx 10–17). -/

/-- Left-pad a digit string with zeros to length `f`. -/
def lpadZeros (s : String) (f : ℕ) : String :=
  String.mk (List.replicate (f - s.length) '0') ++ s

/-- JavaScript `value.toFixed(f)` on a finite value: per the ECMAScript
algorithm, the sign is taken off first, the magnitude is scaled by
`10^f` and rounded to the nearest integer (ties toward the larger
integer, i.e. half-up on the magnitude), and the digits are split `f`
places from the right. -/
def toFixedQ (f : ℕ) (x : ℚ) : String :=
  (if x < 0 then "-" else "") ++
    (if f = 0 then toString (⌊|x| * (10 : ℚ) ^ f + 1/2⌋).toNat
     else
       toString ((⌊|x| * (10 : ℚ) ^ f + 1/2⌋).toNat / 10 ^ f) ++ "." ++
         lpadZeros (toString ((⌊|x| * (10 : ℚ) ^ f + 1/2⌋).toNat % 10 ^ f)) f)

/-- Function `formatValue(value, metric)` from `Tooltip.jsx`: price → dollar sign
plus 2 decimals, volume → the `Intl.NumberFormat` compact rendering
(the platform formatter is abstracted as the `compactFmt` argument),
anything else (the change metric) → 1 decimal plus a percent sign. -/
def formatValue (compactFmt : ℚ → String) (value : ℚ)
    (metric : String) : String :=
  if metric = "price" then "$" ++ toFixedQ 2 value
  else if metric = "volume" then compactFmt value
  else toFixedQ 1 value ++ "%"

/-! Definitions for the zoom and transform handling (Chart.jsx 535–586). -/

/-- A d3 linear (or time) scale: an affine map from the domain interval
`[d0, d1]` to the range interval `[r0, r1]`. -/
structure LinScale where
  d0 : ℚ
  d1 : ℚ
  r0 : ℚ
  r1 : ℚ
deriving DecidableEq

/-- Apply a linear scale to a domain value. -/
def LinScale.apply (s : LinScale) (v : ℚ) : ℚ :=
  s.r0 + (v - s.d0) / (s.d1 - s.d0) * (s.r1 - s.r0)

/-- Invert a linear scale at a range position. -/
def LinScale.invert (s : LinScale) (p : ℚ) : ℚ :=
  s.d0 + (p - s.r0) / (s.r1 - s.r0) * (s.d1 - s.d0)

/-- A d3 zoom transform: scale factor `k` and translation `(tx, ty)`. -/
structure ZoomTransform where
  k : ℚ
  tx : ℚ
  ty : ℚ

/-- Inversion `transform.invertX(p) = (p - tx) / k`. -/
def ZoomTransform.invertX (t : ZoomTransform) (p : ℚ) : ℚ := (p - t.tx) / t.k

/-- Inversion `transform.invertY(p) = (p - ty) / k`. -/
def ZoomTransform.invertY (t : ZoomTransform) (p : ℚ) : ℚ := (p - t.ty) / t.k

/-- Rescaling `transform.rescaleX(x)`: a copy of `x` whose domain endpoints are
the preimages of the transformed range — the original scale is not
modified. -/
def rescaleX (t : ZoomTransform) (s : LinScale) : LinScale :=
  { s with d0 := s.invert (t.invertX s.r0), d1 := s.invert (t.invertX s.r1) }

/-- Rescaling `transform.rescaleY(y)`, analogously. -/
def rescaleY (t : ZoomTransform) (s : LinScale) : LinScale :=
  { s with d0 := s.invert (t.invertY s.r0), d1 := s.invert (t.invertY s.r1) }

/-- The scale state held by the chart across zoom events: the static
scale pair `x`, `y` produced by the scale computation (stored in
`chartRef.current`), and the scales currently applied to the axis
renderers (`axisX`, `axisY`). -/
structure ChartScales where
  x : LinScale
  y : LinScale
  axisX : LinScale
  axisY : LinScale

/-- The `zoom` event handler of `Chart.jsx` (lines 547–581): derive
`newX = transform.rescaleX(x)` and `newY = transform.rescaleY(y)`,
re-render the axes and grid from them, and transform the chart group —
the bindings `x` and `y` themselves are never reassigned. -/
def zoomHandler (st : ChartScales) (t : ZoomTransform) : ChartScales :=
  let newX := rescaleX t st.x
  let newY := rescaleY t st.y
  { st with axisX := newX, axisY := newY }

/-- The `scaleExtent` configured by `Chart.jsx` line 538. -/
def scaleExtentChart : ℚ × ℚ := (1/2, 20)

/-- The `scaleExtent` configured by the enhanced chart variant
(`src/unnamed/part_003` line 624). -/
def scaleExtentEnhanced : ℚ × ℚ := (4/5, 4)

/-- The `scaleExtent` configured by the multi-chart variant
(`src/unnamed/part_002` line 486). -/
def scaleExtentMulti : ℚ × ℚ := (1, 5)

/-- d3-zoom's documented clamping of the scale factor to the configured
`scaleExtent`: `k ↦ max(extent[0], min(extent[1], k))`. -/
def constrainScale (extent : ℚ × ℚ) (k : ℚ) : ℚ :=
  max extent.1 (min extent.2 k)

/-! Helper lemmas. -/

theorem jsMinList_cons (q : ℚ) (t : List ℚ) :
    jsMinList (q :: t) = jsMin2 (.num q) (jsMinList t) := rfl

theorem jsMaxList_cons (q : ℚ) (t : List ℚ) :
    jsMaxList (q :: t) = jsMax2 (.num q) (jsMaxList t) := rfl

theorem jsMinList_spec (l : List ℚ) (h : l ≠ []) :
    ∃ m, jsMinList l = .num m ∧ m ∈ l ∧ ∀ v ∈ l, m ≤ v := by
  induction l with
  | nil => exact absurd rfl h
  | cons q t ih =>
    cases t with
    | nil => exact ⟨q, rfl, by simp, by simp⟩
    | cons r s =>
      obtain ⟨m, hm, hmem, hle⟩ := ih (by simp)
      refine ⟨min q m, ?_, ?_, ?_⟩
      · rw [jsMinList_cons, hm]; rfl
      · rcases min_choice q m with h1 | h1 <;> rw [h1]
        · exact List.mem_cons_self _ _
        · exact List.mem_cons_of_mem _ hmem
      · intro v hv
        rcases List.mem_cons.mp hv with rfl | hv
        · exact min_le_left _ _
        · exact le_trans (min_le_right _ _) (hle v hv)

theorem jsMaxList_spec (l : List ℚ) (h : l ≠ []) :
    ∃ M, jsMaxList l = .num M ∧ M ∈ l ∧ ∀ v ∈ l, v ≤ M := by
  induction l with
  | nil => exact absurd rfl h
  | cons q t ih =>
    cases t with
    | nil => exact ⟨q, rfl, by simp, by simp⟩
    | cons r s =>
      obtain ⟨M, hM, hmem, hle⟩ := ih (by simp)
      refine ⟨max q M, ?_, ?_, ?_⟩
      · rw [jsMaxList_cons, hM]; rfl
      · rcases max_choice q M with h1 | h1 <;> rw [h1]
        · exact List.mem_cons_self _ _
        · exact List.mem_cons_of_mem _ hmem
      · intro v hv
        rcases List.mem_cons.mp hv with rfl | hv
        · exact le_max_left _ _
        · exact le_trans (hle v hv) (le_max_right _ _)

theorem yDomain_price_eq (data : List Row) (visible : List String) :
    yDomain "price" data visible =
      (jsMulPos (jsMinList (metricValues (validRows data) visible Row.price)) (9/10),
       jsMulPos (jsMaxList (metricValues (validRows data) visible Row.price)) (11/10)) := rfl

theorem yDomain_volume_eq (data : List Row) (visible : List String) :
    yDomain "volume" data visible =
      (.num 0,
       jsMulPos (jsMaxList (metricValues (validRows data) visible Row.volume)) (11/10)) := rfl

theorem yDomain_change_eq (data : List Row) (visible : List String) :
    yDomain "change" data visible =
      (jsNeg (jsMax2 (jsAbs (jsMinList (metricValues (validRows data) visible Row.change)))
          (jsAbs (jsMaxList (metricValues (validRows data) visible Row.change)))),
       jsMax2 (jsAbs (jsMinList (metricValues (validRows data) visible Row.change)))
          (jsAbs (jsMaxList (metricValues (validRows data) visible Row.change)))) := rfl

/-! Claim theorems. -/

/-- Claim C1 (code_bug evidence): with every entity hidden the y-domain
computation does NOT fall back to `[0, 1]` — for `metric = "volume"` it
produces `[0, -Infinity]`, because `Math.max` over the empty visible
value set is `-Infinity` and the source has no guard. -/
theorem c1_empty_visible_volume_domain :
    yDomain "volume"
        [⟨some 0, [("Apple", 100)], [("Apple", 50000)], [("Apple", 0)]⟩] []
      = (.num 0, .negInf) ∧
    (JSVal.negInf : JSVal) ≠ .num 1 := by
  constructor
  · rfl
  · intro h
    exact JSVal.noConfusion h

/-- Claim C3: for a non-empty visible change-value set, the change
domain is symmetric about zero, its upper endpoint being the maximum
absolute value across the visible entities' change values. -/
theorem c3_change_domain_symmetric (data : List Row) (visible : List String)
    (h : metricValues (validRows data) visible Row.change ≠ []) :
    ∃ a : ℚ, yDomain "change" data visible = (.num (-a), .num a) ∧
      (∀ v ∈ metricValues (validRows data) visible Row.change, |v| ≤ a) ∧
      ∃ v ∈ metricValues (validRows data) visible Row.change, |v| = a := by
  obtain ⟨m, hm, hmmem, hmle⟩ := jsMinList_spec _ h
  obtain ⟨M, hM, hMmem, hMle⟩ := jsMaxList_spec _ h
  refine ⟨max |m| |M|, ?_, ?_, ?_⟩
  · rw [yDomain_change_eq, hm, hM]
    rfl
  · intro v hv
    refine abs_le.mpr ⟨?_, ?_⟩
    · calc -max |m| |M| ≤ -|m| := neg_le_neg (le_max_left _ _)
        _ ≤ m := neg_abs_le m
        _ ≤ v := hmle v hv
    · calc v ≤ M := hMle v hv
        _ ≤ |M| := le_abs_self M
        _ ≤ max |m| |M| := le_max_right _ _
  · rcases max_choice |m| |M| with h1 | h1
    · exact ⟨m, hmmem, h1.symm⟩
    · exact ⟨M, hMmem, h1.symm⟩

/-- Claim C5: with a non-empty visible value set, the price domain is
`[min × 0.9, max × 1.1]` and the volume domain is `[0, max × 1.1]`,
min/max ranging over the visible entities' valid entries. -/
theorem c5_price_volume_domain (data : List Row) (visible : List String)
    (hp : metricValues (validRows data) visible Row.price ≠ [])
    (hv : metricValues (validRows data) visible Row.volume ≠ []) :
    (∃ m M, yDomain "price" data visible
        = (.num (m * (9/10)), .num (M * (11/10))) ∧
      m ∈ metricValues (validRows data) visible Row.price ∧
      (∀ v ∈ metricValues (validRows data) visible Row.price, m ≤ v) ∧
      M ∈ metricValues (validRows data) visible Row.price ∧
      (∀ v ∈ metricValues (validRows data) visible Row.price, v ≤ M)) ∧
    ∃ M, yDomain "volume" data visible = (.num 0, .num (M * (11/10))) ∧
      M ∈ metricValues (validRows data) visible Row.volume ∧
      ∀ v ∈ metricValues (validRows data) visible Row.volume, v ≤ M := by
  constructor
  · obtain ⟨m, hm, hmmem, hmle⟩ := jsMinList_spec _ hp
    obtain ⟨M, hM, hMmem, hMle⟩ := jsMaxList_spec _ hp
    refine ⟨m, M, ?_, hmmem, hmle, hMmem, hMle⟩
    rw [yDomain_price_eq, hm, hM]
    rfl
  · obtain ⟨M, hM, hMmem, hMle⟩ := jsMaxList_spec _ hv
    refine ⟨M, ?_, hMmem, hMle⟩
    rw [yDomain_volume_eq, hM]
    rfl

/-- Witness for C3 at a concrete dataset and visible set. -/
theorem c3_change_domain_symmetric_witness :
    ∃ a : ℚ,
      yDomain "change"
          [⟨some 0, [("Apple", 100)], [("Apple", 50000)],
            [("Apple", 3), ("Google", -5)]⟩] ["Apple", "Google"]
        = (.num (-a), .num a) ∧
      (∀ v ∈ metricValues
          (validRows [⟨some 0, [("Apple", 100)], [("Apple", 50000)],
            [("Apple", 3), ("Google", -5)]⟩]) ["Apple", "Google"] Row.change,
        |v| ≤ a) ∧
      ∃ v ∈ metricValues
          (validRows [⟨some 0, [("Apple", 100)], [("Apple", 50000)],
            [("Apple", 3), ("Google", -5)]⟩]) ["Apple", "Google"] Row.change,
        |v| = a :=
  c3_change_domain_symmetric _ _ (by decide)

/-- Witness for C5 at a concrete dataset and visible set. -/
theorem c5_price_volume_domain_witness :
    (∃ m M,
      yDomain "price"
          [⟨some 0, [("Apple", 100), ("Google", 200)], [("Apple", 50000)],
            [("Apple", 3)]⟩] ["Apple", "Google"]
        = (.num (m * (9/10)), .num (M * (11/10))) ∧
      m ∈ metricValues
          (validRows [⟨some 0, [("Apple", 100), ("Google", 200)],
            [("Apple", 50000)], [("Apple", 3)]⟩]) ["Apple", "Google"] Row.price ∧
      (∀ v ∈ metricValues
          (validRows [⟨some 0, [("Apple", 100), ("Google", 200)],
            [("Apple", 50000)], [("Apple", 3)]⟩]) ["Apple", "Google"] Row.price,
        m ≤ v) ∧
      M ∈ metricValues
          (validRows [⟨some 0, [("Apple", 100), ("Google", 200)],
            [("Apple", 50000)], [("Apple", 3)]⟩]) ["Apple", "Google"] Row.price ∧
      (∀ v ∈ metricValues
          (validRows [⟨some 0, [("Apple", 100), ("Google", 200)],
            [("Apple", 50000)], [("Apple", 3)]⟩]) ["Apple", "Google"] Row.price,
        v ≤ M)) ∧
    ∃ M,
      yDomain "volume"
          [⟨some 0, [("Apple", 100), ("Google", 200)], [("Apple", 50000)],
            [("Apple", 3)]⟩] ["Apple", "Google"]
        = (.num 0, .num (M * (11/10))) ∧
      M ∈ metricValues
          (validRows [⟨some 0, [("Apple", 100), ("Google", 200)],
            [("Apple", 50000)], [("Apple", 3)]⟩]) ["Apple", "Google"] Row.volume ∧
      ∀ v ∈ metricValues
          (validRows [⟨some 0, [("Apple", 100), ("Google", 200)],
            [("Apple", 50000)], [("Apple", 3)]⟩]) ["Apple", "Google"] Row.volume,
        v ≤ M :=
  c5_price_volume_domain _ _ (by decide) (by decide)

/-- Claim C6 (counterexample): toggling `"Apple"` off and back on from
`["Apple", "Google"]` yields `["Google", "Apple"]`, not the original
order — the re-added company is appended at the end. -/
theorem c6_toggle_counterexample :
    toggleCompany (toggleCompany ["Apple", "Google"] "Apple") "Apple"
      = ["Google", "Apple"] ∧
    toggleCompany (toggleCompany ["Apple", "Google"] "Apple") "Apple"
      ≠ ["Apple", "Google"] := by decide

/-- Claim C6 (amended): toggling a present company off and back on
restores the visible set's membership, but moves the toggled company to
the end — the result is the other companies in their original relative
order followed by the toggled one. -/
theorem c6_toggle_twice (prev : List String) (company : String)
    (h : company ∈ prev) :
    toggleCompany (toggleCompany prev company) company
      = prev.filter (fun c => c != company) ++ [company] ∧
    ∀ x, (x ∈ toggleCompany (toggleCompany prev company) company ↔ x ∈ prev) := by
  have hc : prev.contains company = true := List.elem_iff.mpr h
  have h1 : toggleCompany prev company = prev.filter (fun c => c != company) := by
    rw [toggleCompany, if_pos hc]
  have hnc : (prev.filter (fun c => c != company)).contains company = false := by
    rw [Bool.eq_false_iff]
    intro hcon
    have := List.elem_iff.mp hcon
    rw [List.mem_filter] at this
    simp at this
  have h2 : toggleCompany (toggleCompany prev company) company
      = prev.filter (fun c => c != company) ++ [company] := by
    rw [h1, toggleCompany, hnc]
    simp
  refine ⟨h2, fun x => ?_⟩
  rw [h2, List.mem_append, List.mem_filter]
  constructor
  · rintro (⟨hx, _⟩ | hx)
    · exact hx
    · rw [List.mem_singleton] at hx
      exact hx ▸ h
  · intro hx
    by_cases hxc : x = company
    · exact Or.inr (by simp [hxc])
    · exact Or.inl ⟨hx, by simp [hxc]⟩

/-- Witness for the amended C6 at a concrete list. -/
theorem c6_toggle_twice_witness :
    toggleCompany (toggleCompany ["Apple", "Google", "Amazon"] "Google") "Google"
      = ["Apple", "Google", "Amazon"].filter (fun c => c != "Google") ++ ["Google"] ∧
    ∀ x, (x ∈ toggleCompany (toggleCompany ["Apple", "Google", "Amazon"] "Google") "Google"
      ↔ x ∈ ["Apple", "Google", "Amazon"]) :=
  c6_toggle_twice ["Apple", "Google", "Amazon"] "Google" (by decide)

/-- Claim C7 (counterexample): the main chart's configured zoom extent
is `[0.5, 20]`, which is neither `[0.8, 4]` nor `[1, 5]`. -/
theorem c7_extent_counterexample :
    scaleExtentChart = (1/2, 20) ∧
    scaleExtentChart ≠ (4/5, 4) ∧ scaleExtentChart ≠ (1, 5) := by
  refine ⟨rfl, ?_, ?_⟩ <;>
    simp [scaleExtentChart, Prod.ext_iff]

/-- Claim C7 (amended): each chart variant clamps the zoom scale factor
to its configured extent — `[0.5, 20]` for the main chart, `[0.8, 4]`
for the enhanced variant, `[1, 5]` for the multi-chart variant — so no
accepted scale factor lies outside the variant's extent. -/
theorem c7_scale_factor_clamped (k : ℚ) :
    (scaleExtentChart.1 ≤ constrainScale scaleExtentChart k ∧
      constrainScale scaleExtentChart k ≤ scaleExtentChart.2) ∧
    (scaleExtentEnhanced.1 ≤ constrainScale scaleExtentEnhanced k ∧
      constrainScale scaleExtentEnhanced k ≤ scaleExtentEnhanced.2) ∧
    (scaleExtentMulti.1 ≤ constrainScale scaleExtentMulti k ∧
      constrainScale scaleExtentMulti k ≤ scaleExtentMulti.2) ∧
    scaleExtentChart = (1/2, 20) ∧ scaleExtentEnhanced = (4/5, 4) ∧
    scaleExtentMulti = (1, 5) := by
  refine ⟨⟨le_max_left _ _, ?_⟩, ⟨le_max_left _ _, ?_⟩,
    ⟨le_max_left _ _, ?_⟩, rfl, rfl, rfl⟩ <;>
    exact max_le (by norm_num [scaleExtentChart, scaleExtentEnhanced,
      scaleExtentMulti]) (min_le_left _ _)

/-- Claim C8: the zoom handler only derives rescaled copies of the
static scale pair; over any sequence of zoom events the stored `x` and
`y` scales are left unchanged. -/
theorem c8_zoom_preserves_static_scales (st : ChartScales)
    (events : List ZoomTransform) :
    (events.foldl zoomHandler st).x = st.x ∧
    (events.foldl zoomHandler st).y = st.y := by
  induction events generalizing st with
  | nil => exact ⟨rfl, rfl⟩
  | cons e es ih =>
    rw [List.foldl_cons]
    exact ⟨(ih (zoomHandler st e)).1.trans rfl, (ih (zoomHandler st e)).2.trans rfl⟩

/-- Claim C9: the tooltip value formatter is metric-dependent — price
formats as currency with 2 decimals (`123.456 ↦ "$123.46"`), volume
delegates to the compact number formatter, and change formats as the
signed value with 1 decimal followed by `%` (`-2.34 ↦ "-2.3%"`). -/
theorem c9_formatValue_metric_dependent (compactFmt : ℚ → String) :
    formatValue compactFmt (123456/1000) "price" = "$123.46" ∧
    (∀ v, formatValue compactFmt v "volume" = compactFmt v) ∧
    (∀ v, formatValue compactFmt v "change" = toFixedQ 1 v ++ "%") ∧
    formatValue compactFmt (-234/100) "change" = "-2.3%" := by
  refine ⟨?_, fun v => rfl, fun v => rfl, ?_⟩
  · have hfl : ⌊|(123456/1000 : ℚ)| * (10 : ℚ) ^ 2 + 1/2⌋ = (12346 : ℤ) := by
      rw [abs_of_nonneg (by norm_num : (0 : ℚ) ≤ 123456/1000)]
      norm_num
    show (if ("price" : String) = "price" then
        "$" ++ toFixedQ 2 (123456/1000) else _) = _
    rw [if_pos rfl]
    unfold toFixedQ
    rw [hfl, if_neg (by norm_num : ¬ (123456/1000 : ℚ) < 0),
      if_neg (by norm_num : (2 : ℕ) ≠ 0)]
    decide
  · have hfl : ⌊|(-234/100 : ℚ)| * (10 : ℚ) ^ 1 + 1/2⌋ = (23 : ℤ) := by
      rw [abs_of_nonpos (by norm_num : (-234/100 : ℚ) ≤ 0)]
      norm_num
    show toFixedQ 1 (-234/100) ++ "%" = _
    unfold toFixedQ
    rw [hfl, if_pos (by norm_num : (-234/100 : ℚ) < 0),
      if_neg (by norm_num : (1 : ℕ) ≠ 0)]
    decide

/-! Generator lemmas. -/

theorem rangeMultiplier_pos (tr : String) :
    0 < rangeMultiplier tr ∧ rangeMultiplier tr ≤ 3 := by
  unfold rangeMultiplier
  split_ifs <;> norm_num

theorem dateStep_pos (tr : String) : 0 < dateStep tr := by
  unfold dateStep msPerHour msPerDay
  split_ifs <;> norm_num

theorem pointDate_succ (tr : String) (today : Int) (n i : ℕ) :
    pointDate tr today n (i + 1) = pointDate tr today n i + dateStep tr := by
  unfold pointDate
  push_cast
  ring

theorem pointDate_strictMono (tr : String) (today : Int) (n : ℕ) {i j : ℕ}
    (hij : i < j) : pointDate tr today n i < pointDate tr today n j := by
  unfold pointDate
  have h1 : ((n : Int) - (j : Int) - 1) < ((n : Int) - (i : Int) - 1) := by omega
  have h2 := mul_lt_mul_of_pos_left h1 (dateStep_pos tr)
  omega

theorem genPoints_length (tr : String) (today : Int) (n : ℕ) (mult : ℚ)
    (chgR volR : ℕ → ℕ → ℚ) :
    ∀ (fuel i : ℕ) (prev : List ℚ),
      (genPoints tr today n mult chgR volR i fuel prev).length = fuel := by
  intro fuel
  induction fuel with
  | zero => intro i prev; rfl
  | succ f ih =>
    intro i prev
    simp only [genPoints, List.length_cons, ih]

theorem genPoints_date (tr : String) (today : Int) (n : ℕ) (mult : ℚ)
    (chgR volR : ℕ → ℕ → ℚ) :
    ∀ (fuel i j : ℕ) (prev : List ℚ), j < fuel →
      ((genPoints tr today n mult chgR volR i fuel prev)[j]?).map DataPoint.date
        = some (pointDate tr today n (i + j)) := by
  intro fuel
  induction fuel with
  | zero => intro i j prev h; omega
  | succ f ih =>
    intro i j prev h
    cases j with
    | zero =>
      simp [genPoints]
    | succ j' =>
      rw [genPoints]
      simp only [List.getElem?_cons_succ]
      rw [ih (i + 1) j' _ (by omega)]
      congr 2
      omega

theorem generateStockData_length (n : ℕ) (companies : List String)
    (tr : String) (initR : ℕ → ℚ) (chgR volR : ℕ → ℕ → ℚ) (today : Int) :
    (generateStockData n companies tr initR chgR volR today).length = n :=
  genPoints_length tr today n _ chgR volR n 0 _

theorem generateStockData_date (n : ℕ) (companies : List String)
    (tr : String) (initR : ℕ → ℚ) (chgR volR : ℕ → ℕ → ℚ) (today : Int)
    (j : ℕ) (hj : j < n) :
    ((generateStockData n companies tr initR chgR volR today)[j]?).map
      DataPoint.date = some (pointDate tr today n j) := by
  have := genPoints_date tr today n (rangeMultiplier tr) chgR volR n 0 j
    (initialValuesList initR companies.length) hj
  simpa [generateStockData] using this

/-- Claim C2: the generated dataset has length exactly `numPoints`, its
timestamps are strictly increasing, and consecutive timestamps differ by
one hour for the `day` range and one day otherwise. -/
theorem c2_generated_dataset_shape (n : ℕ) (companies : List String)
    (tr : String) (initR : ℕ → ℚ) (chgR volR : ℕ → ℕ → ℚ) (today : Int) :
    (generateStockData n companies tr initR chgR volR today).length = n ∧
    (generateStockData n companies tr initR chgR volR today).Pairwise
      (fun a b => a.date < b.date) ∧
    ∀ i, i + 1 < n →
      ∃ a b, (generateStockData n companies tr initR chgR volR today)[i]? = some a ∧
        (generateStockData n companies tr initR chgR volR today)[i + 1]? = some b ∧
        b.date = a.date + dateStep tr ∧ a.date < b.date := by
  have hlen := generateStockData_length n companies tr initR chgR volR today
  refine ⟨hlen, ?_, ?_⟩
  · rw [List.pairwise_iff_getElem]
    intro i j hi hj hij
    rw [hlen] at hi hj
    have hdi := generateStockData_date n companies tr initR chgR volR today i hi
    have hdj := generateStockData_date n companies tr initR chgR volR today j hj
    rw [List.getElem?_eq_getElem (by omega), Option.map_some'] at hdi hdj
    rw [Option.some_inj.mp hdi, Option.some_inj.mp hdj]
    exact pointDate_strictMono tr today n hij
  · intro i hi
    have hdi := generateStockData_date n companies tr initR chgR volR today i (by omega)
    have hdj := generateStockData_date n companies tr initR chgR volR today (i + 1) hi
    rcases ha : (generateStockData n companies tr initR chgR volR today)[i]? with _ | a
    · rw [ha] at hdi; exact absurd hdi (by simp)
    rcases hb : (generateStockData n companies tr initR chgR volR today)[i + 1]? with _ | b
    · rw [hb] at hdj; exact absurd hdj (by simp)
    rw [ha, Option.map_some', Option.some_inj] at hdi
    rw [hb, Option.map_some', Option.some_inj] at hdj
    refine ⟨a, b, rfl, rfl, ?_, ?_⟩
    · rw [hdi, hdj, pointDate_succ]
    · rw [hdi, hdj]
      exact pointDate_strictMono tr today n (by omega)

/-- Witness for C2 at `n = 3`, one company, the `day` range. -/
theorem c2_generated_dataset_shape_witness :
    (generateStockData 3 ["Apple"] "day" (fun _ => 0) (fun _ _ => 0)
      (fun _ _ => 0) 0).length = 3 ∧
    ∃ a b, (generateStockData 3 ["Apple"] "day" (fun _ => 0) (fun _ _ => 0)
        (fun _ _ => 0) 0)[0]? = some a ∧
      (generateStockData 3 ["Apple"] "day" (fun _ => 0) (fun _ _ => 0)
        (fun _ _ => 0) 0)[1]? = some b ∧
      b.date = a.date + dateStep "day" ∧ a.date < b.date := by
  have h := c2_generated_dataset_shape 3 ["Apple"] "day" (fun _ => 0)
    (fun _ _ => 0) (fun _ _ => 0) 0
  exact ⟨h.1, h.2.2 0 (by norm_num)⟩

theorem stepCompanies_get? (mult : ℚ) (chg vol : ℕ → ℚ) :
    ∀ (ps : List ℚ) (j k : ℕ),
      (stepCompanies mult chg vol ps j)[k]? = ps[k]?.map (fun p =>
        (p + p * (chg (j + k) * (1/10) - 1/20) * mult,
         p * (chg (j + k) * (1/10) - 1/20) * mult / p * 100,
         ((⌊vol (j + k) * 990000 + 10000⌋ : ℤ) : ℚ))) := by
  intro ps
  induction ps with
  | nil => intro j k; simp [stepCompanies]
  | cons p t ih =>
    intro j k
    cases k with
    | zero => simp [stepCompanies]
    | succ k' =>
      simp only [stepCompanies, List.getElem?_cons_succ]
      rw [ih (j + 1) k']
      have hidx : j + 1 + k' = j + (k' + 1) := by omega
      rw [hidx]

theorem stepCompanies_values_pos (mult : ℚ) (chg vol : ℕ → ℚ)
    (hm : 0 < mult ∧ mult ≤ 3) (hchg : ∀ j, 0 ≤ chg j ∧ chg j < 1) :
    ∀ (ps : List ℚ) (j : ℕ), (∀ p ∈ ps, 0 < p) →
      ∀ v ∈ (stepCompanies mult chg vol ps j).map (fun c => c.1), 0 < v := by
  intro ps
  induction ps with
  | nil => intro j h v hv; simp [stepCompanies] at hv
  | cons p t ih =>
    intro j h v hv
    simp only [stepCompanies, List.map_cons, List.mem_cons] at hv
    rcases hv with rfl | hv
    · have hp := h p (List.mem_cons_self _ _)
      have h1 := (hchg j).1
      have h2 := (hchg j).2
      nlinarith [mul_pos hp hm.1, mul_nonneg (mul_nonneg hp.le hm.1.le) h1,
        mul_le_mul_of_nonneg_left hm.2 hp.le]
    · exact ih (j + 1) (fun q hq => h q (List.mem_cons_of_mem _ hq)) v hv

theorem genPoints_values_pos (tr : String) (today : Int) (n : ℕ) (mult : ℚ)
    (chgR volR : ℕ → ℕ → ℚ) (hm : 0 < mult ∧ mult ≤ 3)
    (hchg : ∀ i j, 0 ≤ chgR i j ∧ chgR i j < 1) :
    ∀ (fuel i : ℕ) (prev : List ℚ), (∀ p ∈ prev, 0 < p) →
      ∀ dp ∈ genPoints tr today n mult chgR volR i fuel prev,
        ∀ v ∈ dp.values, 0 < v := by
  intro fuel
  induction fuel with
  | zero => intro i prev h dp hdp; simp [genPoints] at hdp
  | succ f ih =>
    intro i prev h dp hdp
    simp only [genPoints, List.mem_cons] at hdp
    rcases hdp with rfl | hdp
    · intro v hv
      exact stepCompanies_values_pos mult (chgR i) (volR i) hm (fun j => hchg i j)
        prev 0 h v hv
    · exact ih (i + 1) _
        (stepCompanies_values_pos mult (chgR i) (volR i) hm (fun j => hchg i j)
          prev 0 h)
        dp hdp

theorem genPoints_consec (tr : String) (today : Int) (n : ℕ) (mult : ℚ)
    (chgR volR : ℕ → ℕ → ℚ) :
    ∀ (fuel i j : ℕ) (prev : List ℚ) (a b : DataPoint),
      (genPoints tr today n mult chgR volR i fuel prev)[j]? = some a →
      (genPoints tr today n mult chgR volR i fuel prev)[j + 1]? = some b →
      b.values = (stepCompanies mult (chgR (i + j + 1)) (volR (i + j + 1))
        a.values 0).map (fun c => c.1) := by
  intro fuel
  induction fuel with
  | zero => intro i j prev a b ha _; simp [genPoints] at ha
  | succ f ih =>
    intro i j prev a b ha hb
    cases j with
    | zero =>
      simp only [genPoints, List.getElem?_cons_zero, Option.some_inj] at ha
      simp only [genPoints, List.getElem?_cons_succ] at hb
      cases f with
      | zero => simp [genPoints] at hb
      | succ f' =>
        simp only [genPoints, List.getElem?_cons_zero, Option.some_inj] at hb
        rw [← ha, ← hb]
    | succ j' =>
      simp only [genPoints, List.getElem?_cons_succ] at ha hb
      have h := ih (i + 1) j' _ a b ha hb
      have hidx : i + 1 + j' + 1 = i + (j' + 1) + 1 := by omega
      rw [hidx] at h
      exact h

/-- Claim C10 (implicit): the drawn initial values lie in `[100, 500)`
and every generated price value, at every index and for every time
range, is strictly positive, for all random draws in `[0, 1)`. -/
theorem c10_values_positive (n : ℕ) (companies : List String) (tr : String)
    (initR : ℕ → ℚ) (chgR volR : ℕ → ℕ → ℚ) (today : Int)
    (hinit : ∀ j, 0 ≤ initR j ∧ initR j < 1)
    (hchg : ∀ i j, 0 ≤ chgR i j ∧ chgR i j < 1) :
    (∀ v ∈ initialValuesList initR companies.length, 100 ≤ v ∧ v < 500) ∧
    ∀ dp ∈ generateStockData n companies tr initR chgR volR today,
      ∀ v ∈ dp.values, 0 < v := by
  have hinitv : ∀ v ∈ initialValuesList initR companies.length,
      100 ≤ v ∧ v < 500 := by
    intro v hv
    simp only [initialValuesList, List.mem_map, List.mem_range] at hv
    obtain ⟨j, _, rfl⟩ := hv
    constructor <;> nlinarith [(hinit j).1, (hinit j).2]
  refine ⟨hinitv, ?_⟩
  exact genPoints_values_pos tr today n (rangeMultiplier tr) chgR volR
    (rangeMultiplier_pos tr) hchg n 0 _
    (fun p hp => lt_of_lt_of_le (by norm_num) (hinitv p hp).1)

/-- Witness for C10 at a concrete generator run. -/
theorem c10_values_positive_witness :
    (∀ v ∈ initialValuesList (fun _ => 0) (["Apple"].length),
      100 ≤ v ∧ v < 500) ∧
    ∀ dp ∈ generateStockData 2 ["Apple"] "week" (fun _ => 0) (fun _ _ => 0)
        (fun _ _ => 0) 0,
      ∀ v ∈ dp.values, 0 < v :=
  c10_values_positive 2 ["Apple"] "week" (fun _ => 0) (fun _ _ => 0)
    (fun _ _ => 0) 0 (fun _ => ⟨le_refl 0, by norm_num⟩)
    (fun _ _ => ⟨le_refl 0, by norm_num⟩)

/-- Claim C4: for every pair of consecutive generated points and every
company, the price step is bounded by `0.05 × multiplier × previous`,
for all random draws in `[0, 1)`. -/
theorem c4_step_change_bounded (n : ℕ) (companies : List String)
    (tr : String) (initR : ℕ → ℚ) (chgR volR : ℕ → ℕ → ℚ) (today : Int)
    (hinit : ∀ j, 0 ≤ initR j ∧ initR j < 1)
    (hchg : ∀ i j, 0 ≤ chgR i j ∧ chgR i j < 1) :
    ∀ i a b,
      (generateStockData n companies tr initR chgR volR today)[i]? = some a →
      (generateStockData n companies tr initR chgR volR today)[i + 1]? = some b →
      ∀ (k : ℕ) (va vb : ℚ), a.values[k]? = some va → b.values[k]? = some vb →
        |vb - va| ≤ 1/20 * rangeMultiplier tr * va := by
  intro i a b ha hb k va vb hva hvb
  simp only [generateStockData] at ha hb
  have hcons := genPoints_consec tr today n (rangeMultiplier tr) chgR volR
    n 0 i _ a b ha hb
  have hvapos : 0 < va := by
    have hmem : a ∈ genPoints tr today n (rangeMultiplier tr) chgR volR 0 n
        (initialValuesList initR companies.length) := List.getElem?_mem ha
    refine genPoints_values_pos tr today n (rangeMultiplier tr) chgR volR
      (rangeMultiplier_pos tr) hchg n 0 _ ?_ a hmem va (List.getElem?_mem hva)
    intro p hp
    simp only [initialValuesList, List.mem_map, List.mem_range] at hp
    obtain ⟨j, _, rfl⟩ := hp
    nlinarith [(hinit j).1]
  rw [hcons, List.getElem?_map, stepCompanies_get? (rangeMultiplier tr)
    (chgR (0 + i + 1)) (volR (0 + i + 1)) a.values 0 k, hva] at hvb
  simp only [Option.map_some', Option.some_inj] at hvb
  have hveq : vb = va + va * (chgR (0 + i + 1) (0 + k) * (1/10) - 1/20) *
      rangeMultiplier tr := by rw [← hvb]
  have h0 := (hchg (0 + i + 1) (0 + k)).1
  have h1 := (hchg (0 + i + 1) (0 + k)).2
  have hm := rangeMultiplier_pos tr
  have hsub : vb - va = va * (chgR (0 + i + 1) (0 + k) * (1/10) - 1/20) *
      rangeMultiplier tr := by rw [hveq]; ring
  rw [hsub, abs_mul, abs_mul, abs_of_pos hvapos, abs_of_pos hm.1]
  have habs : |chgR (0 + i + 1) (0 + k) * (1/10) - 1/20| ≤ 1/20 :=
    abs_le.mpr (by constructor <;> nlinarith)
  nlinarith [mul_nonneg (mul_nonneg hvapos.le
      (sub_nonneg.mpr habs)) hm.1.le,
    abs_nonneg (chgR (0 + i + 1) (0 + k) * (1/10) - 1/20)]

/-- Witness for C4: with all draws `0`, one company and the `week`
range, the second point is `90.25` from `95`, within the `±5%` bound. -/
theorem c4_step_change_bounded_witness :
    |(361/4 : ℚ) - 95| ≤ 1/20 * rangeMultiplier "week" * 95 := by
  have h := c4_step_change_bounded 2 ["Apple"] "week" (fun _ => 0)
    (fun _ _ => 0) (fun _ _ => 0) 0 (fun _ => ⟨le_refl 0, by norm_num⟩)
    (fun _ _ => ⟨le_refl 0, by norm_num⟩)
  have hne : ¬ ("week" : String) = "day" := by decide
  refine h 0 ⟨-86400000, [95], [-5], [10000]⟩ ⟨0, [361/4], [-5], [10000]⟩
    ?_ ?_ 0 95 (361/4) ?_ ?_
  · norm_num [generateStockData, genPoints, stepCompanies, initialValuesList,
      pointDate, dateStep, msPerDay, rangeMultiplier, hne]
  · norm_num [generateStockData, genPoints, stepCompanies, initialValuesList,
      pointDate, dateStep, msPerDay, rangeMultiplier, hne]
  · rfl
  · rfl

end StockCharts
